import Mathlib

/-!
Verification development for the `creative-testing/insights` ingestion core:
the rate-limit monitor and retrying client (`app/services/meta_client.py`)
and the baseline/tail refresh orchestrator (`app/services/refresher.py`).

Python dictionaries are modelled as insertion-ordered association lists
(update-in-place keeps the original position, fresh keys are appended),
`datetime.strptime('%Y-%m-%d')` / `timedelta` / `strftime` as exact Gregorian
calendar arithmetic on `(year, month, day)` triples, Python string comparison
as lexicographic comparison of code points, and JSON numbers as rationals.
-/

namespace Insights

/-- Python dict assignment `d[k] = v`: if the key is present the value is
updated in place (keeping its insertion position), otherwise the pair is
appended at the end.  Models CPython 3.7+ insertion-ordered dicts. -/
def pyDictInsert {κ α : Type} [DecidableEq κ] (l : List (κ × α)) (k : κ) (v : α) :
    List (κ × α) :=
  if l.any (fun p => p.1 = k) then
    l.map (fun p => if p.1 = k then (k, v) else p)
  else
    l ++ [(k, v)]

/-- Python dict lookup `d.get(k)` on the association-list model. -/
def lookupIdx {κ α : Type} [DecidableEq κ] (l : List (κ × α)) (k : κ) : Option α :=
  (l.find? (fun p => p.1 = k)).map (fun p => p.2)

/-! ### Calendar arithmetic (`datetime.strptime`, `timedelta`, `strftime`) -/

/-- Value of a decimal digit character, `none` for non-digits. -/
def digitVal (c : Char) : Option Nat :=
  if c.isDigit then some (c.toNat - 48) else none

/-- Parse a nonempty all-digit character list into a number. -/
def digitsToNat : List Char → Option Nat
  | [] => none
  | cs => go cs 0
where
  go : List Char → Nat → Option Nat
    | [], acc => some acc
    | c :: rest, acc =>
      match digitVal c with
      | some d => go rest (acc * 10 + d)
      | none => none

/-- Split a character list on the dash character (like `"a-b-c".split('-')`). -/
def splitDash : List Char → List (List Char)
  | [] => [[]]
  | c :: rest =>
    if c = '-' then [] :: splitDash rest
    else
      match splitDash rest with
      | g :: gs => (c :: g) :: gs
      | [] => [[c]]

/-- Gregorian leap-year rule (as in Python's `calendar`/`datetime`). -/
def isLeapYear (y : Nat) : Bool :=
  y % 4 = 0 && (y % 100 ≠ 0 || y % 400 = 0)

/-- Number of days in a month of a given year. -/
def daysInMonth (y m : Nat) : Nat :=
  if m = 2 then (if isLeapYear y then 29 else 28)
  else if m = 4 ∨ m = 6 ∨ m = 9 ∨ m = 11 then 30
  else 31

/-- Models `datetime.strptime(s, '%Y-%m-%d')`: exactly four digits for the year,
one or two digits for month and day, and a valid calendar date (year 1..9999);
anything else raises `ValueError`, modelled as `none`. -/
def parseDate (s : String) : Option (Nat × Nat × Nat) :=
  match splitDash s.data with
  | [ys, ms, ds] =>
    if ys.length = 4 ∧ (1 ≤ ms.length ∧ ms.length ≤ 2) ∧ (1 ≤ ds.length ∧ ds.length ≤ 2) then
      match digitsToNat ys, digitsToNat ms, digitsToNat ds with
      | some y, some m, some d =>
        if 1 ≤ y ∧ y ≤ 9999 ∧ 1 ≤ m ∧ m ≤ 12 ∧ 1 ≤ d ∧ d ≤ daysInMonth y m then
          some (y, m, d)
        else none
      | _, _, _ => none
    else none
  | _ => none

/-- Days in the months strictly before month `m` of year `y`. -/
def monthDaysBefore (y m : Nat) : Nat :=
  match m with
  | 0 => 0
  | n + 1 => if n = 0 then 0 else monthDaysBefore y n + daysInMonth y n

/-- Day number of a date, with 0001-01-01 as day 0 (proleptic Gregorian, the
ordinal used by `datetime` up to a constant shift).  Subtracting two such day
numbers is exactly `(d1 - d2).days` for midnight datetimes. -/
def dayNumber3 : Nat × Nat × Nat → Nat
  | (y, m, d) =>
    365 * (y - 1) + (y - 1) / 4 - (y - 1) / 100 + (y - 1) / 400 + monthDaysBefore y m + (d - 1)

/-- The day before a date; `none` below `date.min = 0001-01-01`
(Python raises `OverflowError` there). -/
def prevDay : Nat × Nat × Nat → Option (Nat × Nat × Nat)
  | (y, m, d) =>
    if 2 ≤ d then some (y, m, d - 1)
    else if 2 ≤ m then some (y, m - 1, daysInMonth y (m - 1))
    else if 2 ≤ y then some (y - 1, 12, 31)
    else none

/-- Models `date - timedelta(days=n)` by stepping one day at a time. -/
def subDaysOpt : Nat → Nat × Nat × Nat → Option (Nat × Nat × Nat)
  | 0, dt => some dt
  | n + 1, dt => (prevDay dt).bind (subDaysOpt n)

/-- Decimal digit character of `n < 10`. -/
def digitChar (n : Nat) : Char := Char.ofNat (48 + n)

/-- Decimal digits of `n` (with a fuel bound; empty for `n = 0`). -/
def natDigitsAux : Nat → Nat → List Char
  | 0, _ => []
  | fuel + 1, n =>
    if n = 0 then [] else natDigitsAux fuel (n / 10) ++ [digitChar (n % 10)]

/-- The number `n` printed in decimal, left-padded with zeros to width `w`
(the `%Y`/`%m`/`%d` forms of `strftime` for in-range values). -/
def padNat (w n : Nat) : List Char :=
  let ds := natDigitsAux 8 n
  List.replicate (w - ds.length) '0' ++ ds

/-- Models `date.strftime('%Y-%m-%d')`. -/
def formatDate : Nat × Nat × Nat → String
  | (y, m, d) => ⟨padNat 4 y ++ '-' :: padNat 2 m ++ '-' :: padNat 2 d⟩

/-- Lexicographic `a >= b` on character lists, as Python compares strings. -/
def lexGe : List Char → List Char → Bool
  | _, [] => true
  | [], _ :: _ => false
  | a :: as, b :: bs => if a = b then lexGe as bs else decide (b < a)

/-- Python string comparison `a >= b` (lexicographic on code points). -/
def strGe (a b : String) : Bool := lexGe a.data b.data

/-!  ### Records and `_upsert_daily_ads` (`refresher.py`) -/

/-- Retention configuration from `refresher.py`: `BASELINE_DAYS = 90`. -/
def BASELINE_DAYS : Nat := 90

/-- Tail window from `refresher.py`: `TAIL_BACKFILL_DAYS = 3`. -/
def TAIL_BACKFILL_DAYS : Nat := 3

/-- Models `(strptime(reference_date) - timedelta(days=BASELINE_DAYS)).strftime('%Y-%m-%d')`:
the pruning cutoff computed by `_upsert_daily_ads`.  `none` models the
`ValueError` / `OverflowError` raised on an unparseable or underflowing date. -/
def cutoffString (referenceDate : String) : Option String :=
  (parseDate referenceDate).bind (fun dt => (subDaysOpt BASELINE_DAYS dt).map formatDate)

/-- One fetched/stored ad row.  Only the fields `_upsert_daily_ads` reads are
explicit (`ad.get('ad_id')`, `ad.get('date_start')`, `ad.get('date')`, each
possibly missing); all remaining provider fields are collapsed into the opaque
`rest` payload.  A missing field is `none`. -/
structure Record where
  ad_id : Option String
  date_start : Option String
  date : Option String
  rest : String
deriving DecidableEq

/-- Python truthiness of an optional string (`None` and `''` are falsy). -/
def truthyStr : Option String → Option String
  | some s => if s = "" then none else some s
  | none => none

/-- Models `ad.get('date_start') or ad.get('date')` (Python `or` on possibly-falsy
strings). -/
def adDateKey (r : Record) : Option String :=
  match truthyStr r.date_start with
  | some d => some d
  | none => truthyStr r.date

/-- The `(ad_id, ad_date)` key of a record, `none` when either part is falsy
(`if ad_id and ad_date` in the source). -/
def recKey (r : Record) : Option (String × String) :=
  match truthyStr r.ad_id, adDateKey r with
  | some i, some d => some (i, d)
  | _, _ => none

/-- The index type of `_upsert_daily_ads`: a Python dict keyed by
`(ad_id, ad_date)`. -/
abbrev Idx := List ((String × String) × Record)

/-- Fold a list of ads into the `(ad_id, ad_date)` index, skipping key-less
records, exactly as the two indexing loops of `_upsert_daily_ads` do. -/
def indexAds (init : Idx) (ads : List Record) : Idx :=
  ads.foldl
    (fun idx ad =>
      match recKey ad with
      | some k => pyDictInsert idx k ad
      | none => idx)
    init

/-- The merged index: existing ads first, then the new ads overlaid
(last write wins per key). -/
def buildIndex (existing newAds : List Record) : Idx :=
  indexAds (indexAds [] existing) newAds

/-- The retention test `ad_date >= cutoff_date` on an index key. -/
def keepB (cutoff : String) (k : String × String) : Bool := strGe k.2 cutoff

/-- Models `_upsert_daily_ads(existing_ads, new_ads, reference_date)`: index the
existing ads, overlay the new ones, then keep exactly the entries whose date
is `>= cutoff` (string comparison), in index order.  `none` models the
exception raised when the reference date cannot be handled. -/
def upsertDailyAds (existing newAds : List Record) (referenceDate : String) :
    Option (List Record) :=
  (cutoffString referenceDate).map
    (fun cutoff =>
      ((buildIndex existing newAds).filter (fun p => keepB cutoff p.1)).map (fun p => p.2))

/-! ### `_determine_refresh_mode` and `sync_account_data` (`refresher.py`) -/

/-- The prior dataset loaded from the store: `metadata.get('reference_date')`
(possibly missing) and the `daily_ads` list.  `_load_existing_baseline`
returns `None` for a missing or malformed blob, modelled by wrapping this
structure in `Option` at use sites. -/
structure Baseline where
  referenceDate : Option String
  dailyAds : List Record
deriving DecidableEq

/-- Models `_determine_refresh_mode(baseline, reference_date)`: BASELINE with a
90-day window when there is no usable prior dataset, its reference date is
falsy, either date fails `strptime`, or the prior date is newer than the
reference date; TAIL with a 3-day window otherwise. -/
def determineRefreshMode (baseline : Option Baseline) (referenceDate : String) :
    String × Nat :=
  match baseline with
  | none => ("BASELINE", BASELINE_DAYS)
  | some b =>
    match truthyStr b.referenceDate with
    | none => ("BASELINE", BASELINE_DAYS)
    | some baselineDate =>
      match parseDate baselineDate, parseDate referenceDate with
      | some bdt, some rdt =>
        if (dayNumber3 rdt : Int) - (dayNumber3 bdt : Int) < 0 then
          ("BASELINE", BASELINE_DAYS)
        else
          ("TAIL", TAIL_BACKFILL_DAYS)
      | _, _ => ("BASELINE", BASELINE_DAYS)

/-- Step 10 of `sync_account_data`: in TAIL mode with a truthy existing
baseline, upsert the fetched rows into it; otherwise replace wholesale
(`all_daily_ads = daily_insights`). -/
def mergedAds (existingBaseline : Option Baseline) (referenceDate : String)
    (fetched : List Record) : Option (List Record) :=
  match existingBaseline with
  | some b =>
    if (determineRefreshMode (some b) referenceDate).1 = "TAIL" then
      upsertDailyAds b.dailyAds fetched referenceDate
    else
      some fetched
  | none => some fetched

/-- Outcome of one synchronization run: the storage keys written (in write
order), the `daily_ads` list persisted in `baseline_daily.json` (if the run
got that far), and the error message of the `RefreshError` aborting the run
(if any). -/
structure SyncResult where
  filesWritten : List String
  persistedDailyAds : Option (List Record)
  error : Option String
deriving DecidableEq

/-- Steps 10–15 of `sync_account_data`: merge (mode-dependent), transform to
columnar shards, validate, and only then write `baseline_daily.json`, the
three shard files and the manifest.  The transform/validate collaborators
(`columnar_transform`, external to this core) are passed in as pure functions,
as §4.4 of the design treats them; the fetched (and enriched) rows arrive as
an input since fetching is HTTP.  A nonempty validation report raises
`RefreshError` before anything is written. -/
def syncAccountData {σ : Type} (transform : List Record → σ)
    (validate : σ → List String) (existingBaseline : Option Baseline)
    (referenceDate : String) (fetched : List Record) : SyncResult :=
  match mergedAds existingBaseline referenceDate fetched with
  | none => ⟨[], none, some "date error"⟩
  | some allDailyAds =>
    if validate (transform allDailyAds) = [] then
      ⟨["baseline_daily.json", "meta_v1.json", "agg_v1.json", "summary_v1.json",
        "manifest.json"],
       some allDailyAds, none⟩
    else
      ⟨[], none, some "Validation failed"⟩

/-! ### `AsyncRateLimitMonitor.parse_headers` (`meta_client.py`) -/

/-- A rate-limit response header: absent (empty string), present but not
valid JSON (the `except` branches swallow the decode error), or present with
decoded content. -/
inductive HeaderVal (α : Type) where
  | absent : HeaderVal α
  | malformed : HeaderVal α
  | parsed (val : α) : HeaderVal α
deriving DecidableEq

/-- Python truthiness of the raw header string (`if buc_header:`). -/
def headerPresent {α : Type} : HeaderVal α → Bool
  | .absent => false
  | _ => true

/-- One entry of the `X-Business-Use-Case-Usage` per-feature usage list, with
the `.get(..., 0)` defaults already applied; `usageType` models the `type`
field (default `'unknown'`).  JSON numbers are modelled as rationals. -/
structure BUCEntry where
  call_count : ℚ
  total_time : ℚ
  total_cputime : ℚ
  estimated_time_to_regain_access : ℚ
  usageType : String
deriving DecidableEq

/-- Decoded `X-Ad-Account-Usage` header. -/
structure AccUsage where
  acc_id_util_pct : ℚ
  reset_time_duration : Option ℚ
deriving DecidableEq

/-- Decoded `X-FB-Ads-Insights-Throttle` header, with `.get(..., 0)` defaults
applied. -/
structure ThrottleUsage where
  app_id_util_pct : ℚ
  acc_id_util_pct : ℚ
deriving DecidableEq

/-- The three alternative rate-limit headers of one response. -/
structure Headers where
  buc : HeaderVal (List (String × List BUCEntry))
  acc : HeaderVal AccUsage
  throttle : HeaderVal ThrottleUsage
deriving DecidableEq

/-- The `usage_info` dict built by `parse_headers`. -/
structure UsageInfo where
  usage_percent : ℚ
  should_pause : Bool
  pause_seconds : ℚ
  details : List (String × (ℚ × ℚ × ℚ))
deriving DecidableEq

/-- The initial `usage_info` value. -/
def initUsage : UsageInfo := ⟨0, false, 0, []⟩

/-- Python `int()` truncation toward zero on a rational. -/
def pyInt (q : ℚ) : Int :=
  if 0 ≤ q then ((q.num.natAbs / q.den : Nat) : Int)
  else -((q.num.natAbs / q.den : Nat) : Int)

/-- The value `max(call_count, total_time, total_cputime)` for one usage entry. -/
def bucFieldMax (u : BUCEntry) : ℚ :=
  max u.call_count (max u.total_time u.total_cputime)

/-- The body of the inner loop over `usages` in the
`X-Business-Use-Case-Usage` branch of `parse_headers`. -/
def bucStep (ui : UsageInfo) (u : BUCEntry) : UsageInfo :=
  let ui := { ui with usage_percent := max ui.usage_percent (bucFieldMax u) }
  let ui :=
    if 0 < u.estimated_time_to_regain_access then
      { ui with
        pause_seconds := ((pyInt (u.estimated_time_to_regain_access * 60) : Int) : ℚ),
        should_pause := true }
    else ui
  { ui with
    details := pyDictInsert ui.details u.usageType
      (u.call_count, u.total_time, u.total_cputime) }

/-- Shared monitor state: one stored snapshot per resource key
(`usage_by_account`) and the running `global_usage`. -/
structure MonState where
  usageByAccount : List (String × UsageInfo)
  globalUsage : ℚ
deriving DecidableEq

/-- The monitor's initial state (`AsyncRateLimitMonitor.__init__`). -/
def monInit : MonState := ⟨[], 0⟩

/-- The `X-Business-Use-Case-Usage` branch of `parse_headers`: fold the
decoded per-account lists of per-feature usage entries into `usage_info`. -/
def applyBucHeader (ui : UsageInfo) : HeaderVal (List (String × List BUCEntry)) →
    UsageInfo
  | .parsed bucData => bucData.foldl (fun ui p => p.2.foldl bucStep ui) ui
  | _ => ui

/-- The `X-Ad-Account-Usage` fallback branch of `parse_headers`: taken only
when the account-usage header string is truthy and the detailed header string
is not (`if acc_header and not buc_header`). -/
def applyAccHeader (ui : UsageInfo) (h : Headers) : UsageInfo :=
  if headerPresent h.acc && !headerPresent h.buc then
    match h.acc with
    | .parsed a =>
      { ui with
        usage_percent := a.acc_id_util_pct,
        pause_seconds :=
          match a.reset_time_duration with
          | some r => r
          | none => ui.pause_seconds }
    | _ => ui
  else ui

/-- The `X-FB-Ads-Insights-Throttle` branch of `parse_headers` — consulted
unconditionally whenever the header string is present and decodes. -/
def applyThrottleHeader (ui : UsageInfo) : HeaderVal ThrottleUsage → UsageInfo
  | .parsed t =>
    { ui with
      usage_percent := max (max ui.usage_percent t.app_id_util_pct) t.acc_id_util_pct }
  | _ => ui

/-- The proactive-pause thresholds of `parse_headers` (80% ⇒ 60s pause,
90% ⇒ 120s pause, unless a pause was already set). -/
def applyThresholds (ui : UsageInfo) : UsageInfo :=
  if decide (80 ≤ ui.usage_percent) && !ui.should_pause then
    { ui with
      should_pause := true,
      pause_seconds := if decide (90 ≤ ui.usage_percent) then 120 else 60 }
  else ui

/-- Models `AsyncRateLimitMonitor.parse_headers(headers, account_id)`: fold the
detailed per-feature header, fall back to the per-account header only when
the detailed header *string* is absent, always consult the insights-throttle
header, apply the 80/90 proactive-pause thresholds, store the snapshot for
`account_id` and raise `global_usage` to the new snapshot's percentage.
Returns the new state and the `usage_info` result. -/
def parseHeaders (st : MonState) (h : Headers) (accountId : String) :
    MonState × UsageInfo :=
  let ui : UsageInfo :=
    applyThresholds
      (applyThrottleHeader (applyAccHeader (applyBucHeader initUsage h.buc) h)
        h.throttle)
  (⟨pyDictInsert st.usageByAccount accountId ui,
    max st.globalUsage ui.usage_percent⟩, ui)

/-- Specification-side view for the corrected C4: the maximum
`usage_percent` over the currently stored snapshots. -/
def maxStoredUsage (st : MonState) : ℚ :=
  (st.usageByAccount.map (fun p => p.2.usage_percent)).foldl max 0

/-- Specification-side view for the corrected C5: every usage field parsed
from the headers `parse_headers` actually consults when the detailed header
is present (the per-feature maxima and the two throttle percentages). -/
def parsedUsageFields (h : Headers) : List ℚ :=
  (match h.buc with
   | .parsed bucData => bucData.flatMap (fun p => p.2.map bucFieldMax)
   | _ => []) ++
  (match h.throttle with
   | .parsed t => [t.app_id_util_pct, t.acc_id_util_pct]
   | _ => [])

/-! ### `MetaClient._request_with_retry` (`meta_client.py`) -/

/-- What the transport produces for one attempt: an HTTP status, or one of
the two caught timeout exceptions. -/
inductive HttpOutcome where
  | status (code : Nat) : HttpOutcome
  | connectTimeout : HttpOutcome
  | readTimeout : HttpOutcome

/-- Whether the attempt lands in the `except (HTTPStatusError, ConnectError,
ReadTimeout)` handler: `response.raise_for_status()` raises for *every*
status `>= 400` — the dedicated 4xx branch also calls `raise_for_status()`,
so its exception is caught by the very same handler that drives retries. -/
def isFailure : HttpOutcome → Bool
  | .status code => decide (400 ≤ code)
  | .connectTimeout => true
  | .readTimeout => true

/-- The attempt loop of `_request_with_retry`, with `remaining` attempts
left (`remaining = attempts - attempt + 1`).  Returns the number of the
attempt on which the loop stopped and whether it returned successfully
(`false` = raised `MetaAPIError`). -/
def retryGo (server : Nat → HttpOutcome) (attempt : Nat) : Nat → Nat × Bool
  | 0 => (attempt - 1, false)
  | remaining + 1 =>
    if isFailure (server attempt) then
      if remaining = 0 then (attempt, false)
      else retryGo server (attempt + 1) remaining
    else (attempt, true)

/-- Models `_request_with_retry` with a deterministic transport (`server n` is the
outcome of the `n`-th attempt): `(attempts used, success)`. -/
def requestWithRetry (server : Nat → HttpOutcome) (attempts : Nat) : Nat × Bool :=
  retryGo server 1 attempts

/-! ### The chunked fetch window of `sync_account_data` (step 7) -/

/-- The chunk threshold `CHUNK_SIZE_DAYS = 30`. -/
def CHUNK_SIZE_DAYS : Nat := 30

/-- The integers from `s` to `e` inclusive (dates as day numbers). -/
def intRange (s e : Int) : List Int :=
  if h : s ≤ e then s :: intRange (s + 1) e else []
termination_by (e + 1 - s).toNat
decreasing_by omega

/-- The chunk loop of `sync_account_data`: starting at `s`, emit windows
`(chunk_start, min (chunk_start + 29) e)` until the whole range `[s, e]` is
covered, advancing to `chunk_end + 1` each time. -/
def chunkRanges (s e : Int) : List (Int × Int) :=
  if h : s ≤ e then (s, min (s + 29) e) :: chunkRanges (min (s + 29) e + 1) e else []
termination_by (e + 1 - s).toNat
decreasing_by omega

/-- The fetch windows issued by step 7 for a run on day `today` fetching
`days` days: chunked into 30-day pieces from `today - days` to yesterday when
`days > CHUNK_SIZE_DAYS`, a single window otherwise.  Dates are day numbers. -/
def fetchWindows (today : Int) (days : Nat) : List (Int × Int) :=
  if CHUNK_SIZE_DAYS < days then chunkRanges (today - days) (today - 1)
  else [(today - days, today - 1)]

/-! ### Auxiliary notions used to state and prove properties of the merge -/

/-- The last record of `ads` carrying key `k` — the value last-write-wins
leaves in the index for that key. -/
def lastWith (ads : List Record) (k : String × String) : Option Record :=
  ads.reverse.find? (fun r => recKey r = some k)

/-- Every index entry stores a record whose own key is the entry's key
(an invariant of the two indexing loops). -/
def keyConsistent (l : Idx) : Prop := ∀ p ∈ l, recKey p.2 = some p.1

/-- The index keys are pairwise distinct (a Python dict invariant). -/
def keysNodup (l : Idx) : Prop := (l.map Prod.fst).Nodup

/-- The `(key, record)` pairs of the keyed records of a list, in order. -/
def recEntries : List Record → Idx
  | [] => []
  | r :: rest =>
    match recKey r with
    | some k => (k, r) :: recEntries rest
    | none => recEntries rest

/-- The condition under which claim C8 says `_determine_refresh_mode` returns
BASELINE: no prior dataset, prior reference date missing/falsy, prior
reference date unparseable, or prior reference date strictly newer than the
reference date.  (The claim's list — it omits an unparseable *reference*
date argument.) -/
def c8ClaimCond (baseline : Option Baseline) (referenceDate : String) : Prop :=
  baseline = none ∨
  (∃ b, baseline = some b ∧ truthyStr b.referenceDate = none) ∨
  (∃ b bd, baseline = some b ∧ truthyStr b.referenceDate = some bd ∧
    (parseDate bd = none ∨
     (∃ bdt rdt, parseDate bd = some bdt ∧ parseDate referenceDate = some rdt ∧
       dayNumber3 rdt < dayNumber3 bdt)))

/-- The corrected BASELINE condition: additionally BASELINE when the
`reference_date` argument itself fails to parse (the code parses both dates
inside the same `try`). -/
def c8AmendedCond (baseline : Option Baseline) (referenceDate : String) : Prop :=
  baseline = none ∨
  (∃ b, baseline = some b ∧ truthyStr b.referenceDate = none) ∨
  (∃ b bd, baseline = some b ∧ truthyStr b.referenceDate = some bd ∧
    (parseDate bd = none ∨ parseDate referenceDate = none ∨
     (∃ bdt rdt, parseDate bd = some bdt ∧ parseDate referenceDate = some rdt ∧
       dayNumber3 rdt < dayNumber3 bdt)))

/-! ### Concrete inputs used by counterexamples and witnesses -/

/-- A fetched row: ad `a1` on 2024-03-30, spend 10. -/
def recDup1 : Record := ⟨some "a1", some "2024-03-30", none, "spend=10"⟩

/-- A second fetched row with the *same* `(ad_id, date)` key, spend 15. -/
def recDup2 : Record := ⟨some "a1", some "2024-03-30", none, "spend=15"⟩

/-- A row dated exactly 90 days before 2024-04-01. -/
def recJan2 : Record := ⟨some "a1", some "2024-01-02", none, "kept"⟩

/-- A row dated 91 days before 2024-04-01. -/
def recJan1 : Record := ⟨some "a1", some "2024-01-01", none, "pruned"⟩

/-- A row with no `ad_id` (key-less). -/
def recNoKey : Record := ⟨none, some "2024-03-30", none, "keyless"⟩

/-- Headers whose detailed usage list reports 10% and whose throttle header
reports 50%. -/
def cexHeaders : Headers :=
  ⟨.parsed [("act_1", [⟨10, 0, 0, 0, "ads_insights"⟩])], .absent, .parsed ⟨50, 0⟩⟩

/-- The headers `cexHeaders` with the throttle header removed. -/
def cexHeadersNoThr : Headers := { cexHeaders with throttle := .absent }

/-- A response whose throttle header reports 90% usage. -/
def hdr90 : Headers := ⟨.absent, .absent, .parsed ⟨90, 0⟩⟩

/-- A later response on the same resource key reporting 10% usage. -/
def hdr10 : Headers := ⟨.absent, .absent, .parsed ⟨10, 0⟩⟩

/-- A prior baseline whose metadata reference date is the valid 2024-01-01. -/
def cexBaseline : Baseline := ⟨some "2024-01-01", []⟩

/-! ## Helper lemmas about the Python-dict model -/

theorem mem_pyDictInsert {κ α : Type} [DecidableEq κ] {l : List (κ × α)} {k : κ}
    {v : α} {p : κ × α} (hp : p ∈ pyDictInsert l k v) : p = (k, v) ∨ p ∈ l := by
  unfold pyDictInsert at hp
  split at hp
  · rcases List.mem_map.1 hp with ⟨q, hq, hqe⟩
    by_cases h : q.1 = k
    · left; rw [← hqe]; simp [h]
    · right; rw [← hqe]; simpa [h] using hq
  · rcases List.mem_append.1 hp with h | h
    · right; exact h
    · left; simpa using h

theorem keys_pyDictInsert_pos {κ α : Type} [DecidableEq κ] {l : List (κ × α)}
    {k : κ} {v : α} (h : l.any (fun p => p.1 = k) = true) :
    (pyDictInsert l k v).map Prod.fst = l.map Prod.fst := by
  unfold pyDictInsert
  rw [if_pos h, List.map_map]
  apply List.map_congr_left
  intro p hp
  by_cases hpk : p.1 = k <;> simp [hpk]

theorem keys_pyDictInsert_neg {κ α : Type} [DecidableEq κ] {l : List (κ × α)}
    {k : κ} {v : α} (h : l.any (fun p => p.1 = k) = false) :
    (pyDictInsert l k v).map Prod.fst = l.map Prod.fst ++ [k] := by
  unfold pyDictInsert
  rw [if_neg (by simp [h]), List.map_append]
  rfl

theorem keysNodup_pyDictInsert {κ α : Type} [DecidableEq κ] {l : List (κ × α)}
    {k : κ} {v : α} (h : (l.map Prod.fst).Nodup) :
    ((pyDictInsert l k v).map Prod.fst).Nodup := by
  cases hany : l.any (fun p => p.1 = k) with
  | true => rw [keys_pyDictInsert_pos hany]; exact h
  | false =>
    rw [keys_pyDictInsert_neg hany]
    have hk : k ∉ l.map Prod.fst := by
      intro hmem
      rcases List.mem_map.1 hmem with ⟨q, hq, hqk⟩
      have := List.any_eq_false.1 hany q hq
      simp [hqk] at this
    refine List.Nodup.append h (List.nodup_singleton k) ?_
    intro a ha hb
    rcases List.mem_singleton.1 hb with rfl
    exact hk ha

theorem find_map_upd_eq {κ α : Type} [DecidableEq κ] (l : List (κ × α)) (k : κ)
    (v : α) (h : l.any (fun p => p.1 = k) = true) :
    (l.map (fun p => if p.1 = k then (k, v) else p)).find? (fun p => p.1 = k)
      = some (k, v) := by
  induction l with
  | nil => simp at h
  | cons q t ih =>
    by_cases hq : q.1 = k
    · simp [hq, List.find?_cons]
    · have ht : t.any (fun p => p.1 = k) = true := by
        simpa [List.any_cons, hq] using h
      simpa [List.find?_cons, hq] using ih ht

theorem find_map_upd_ne {κ α : Type} [DecidableEq κ] (l : List (κ × α)) (k : κ)
    (v : α) (k' : κ) (hne : k' ≠ k) :
    (l.map (fun p => if p.1 = k then (k, v) else p)).find? (fun p => p.1 = k')
      = l.find? (fun p => p.1 = k') := by
  rw [List.find?_map]
  have hpred : ((fun p : κ × α => decide (p.1 = k')) ∘
      (fun p => if p.1 = k then (k, v) else p)) = fun p : κ × α => decide (p.1 = k') := by
    funext p
    by_cases hp : p.1 = k <;> simp [Function.comp, hp]
  rw [hpred]
  cases hf : l.find? (fun p => decide (p.1 = k')) with
  | none => rfl
  | some q =>
    have hq : q.1 = k' := by simpa using List.find?_some hf
    have hqk : ¬q.1 = k := by rw [hq]; exact hne
    simp [hqk]

theorem lookup_pyDictInsert {κ α : Type} [DecidableEq κ] (l : List (κ × α))
    (k : κ) (v : α) (k' : κ) :
    lookupIdx (pyDictInsert l k v) k' = if k' = k then some v else lookupIdx l k' := by
  unfold pyDictInsert lookupIdx
  cases hany : l.any (fun p => p.1 = k) with
  | true =>
    rw [if_pos rfl]
    by_cases hk : k' = k
    · subst hk
      rw [find_map_upd_eq l k' v hany, if_pos rfl]
      rfl
    · rw [find_map_upd_ne l k v k' hk, if_neg hk]
  | false =>
    rw [if_neg (by simp)]
    by_cases hk : k' = k
    · subst hk
      have hnone : l.find? (fun p => p.1 = k') = none := by
        rw [List.find?_eq_none]
        intro x hx
        have := List.any_eq_false.1 hany x hx
        simpa using this
      rw [List.find?_append, hnone, if_pos rfl]
      simp [List.find?_cons]
    · rw [List.find?_append, if_neg hk]
      have h2 : List.find? (fun p => p.1 = k') [(k, v)] = none := by
        simp only [List.find?_cons, List.find?_nil]
        split
        · rename_i hkk
          exact absurd (of_decide_eq_true hkk).symm hk
        · rfl
      rw [h2, Option.or_none]

/-! ## Helper lemmas about the merge index -/

theorem indexAds_cons_some (init : Idx) (a : Record) (t : List Record)
    (k : String × String) (hk : recKey a = some k) :
    indexAds init (a :: t) = indexAds (pyDictInsert init k a) t := by
  unfold indexAds
  rw [List.foldl_cons]
  congr 1
  simp [hk]

theorem indexAds_cons_none (init : Idx) (a : Record) (t : List Record)
    (hk : recKey a = none) :
    indexAds init (a :: t) = indexAds init t := by
  unfold indexAds
  rw [List.foldl_cons]
  congr 1
  simp [hk]

theorem indexAds_keyConsistent (ads : List Record) :
    ∀ init : Idx, keyConsistent init → keyConsistent (indexAds init ads) := by
  induction ads with
  | nil => intro init h; exact h
  | cons a t ih =>
    intro init h
    cases hk : recKey a with
    | none =>
      rw [indexAds_cons_none init a t hk]
      exact ih init h
    | some k =>
      rw [indexAds_cons_some init a t k hk]
      refine ih _ ?_
      intro p hp
      rcases mem_pyDictInsert hp with rfl | hp'
      · exact hk
      · exact h p hp'

theorem indexAds_keysNodup (ads : List Record) :
    ∀ init : Idx, keysNodup init → keysNodup (indexAds init ads) := by
  induction ads with
  | nil => intro init h; exact h
  | cons a t ih =>
    intro init h
    cases hk : recKey a with
    | none =>
      rw [indexAds_cons_none init a t hk]
      exact ih init h
    | some k =>
      rw [indexAds_cons_some init a t k hk]
      exact ih _ (keysNodup_pyDictInsert h)

theorem lastWith_cons (a : Record) (t : List Record) (k : String × String) :
    lastWith (a :: t) k =
      match lastWith t k with
      | some r => some r
      | none => if recKey a = some k then some a else none := by
  unfold lastWith
  rw [List.reverse_cons, List.find?_append]
  cases t.reverse.find? (fun r => recKey r = some k) with
  | some r => rfl
  | none =>
    simp only [Option.or]
    simp [List.find?_cons]
    split <;> rename_i hsp
    · rw [if_pos (of_decide_eq_true hsp)]
    · rw [if_neg (of_decide_eq_false hsp)]

theorem lookup_indexAds (ads : List Record) :
    ∀ (init : Idx) (k : String × String),
    lookupIdx (indexAds init ads) k =
      match lastWith ads k with
      | some r => some r
      | none => lookupIdx init k := by
  induction ads with
  | nil =>
    intro init k
    simp [indexAds, lastWith]
  | cons a t ih =>
    intro init k
    cases hk : recKey a with
    | none =>
      rw [indexAds_cons_none init a t hk, ih, lastWith_cons]
      cases lastWith t k with
      | some r => rfl
      | none => simp [hk]
    | some ka =>
      rw [indexAds_cons_some init a t ka hk, ih, lastWith_cons]
      cases lastWith t k with
      | some r => rfl
      | none =>
        rw [lookup_pyDictInsert]
        by_cases hke : k = ka
        · subst hke
          rw [if_pos rfl, if_pos hk]
        · rw [if_neg hke,
              if_neg (by rw [hk]; exact fun he => hke (Option.some.inj he).symm)]

theorem lookupIdx_mem {κ α : Type} [DecidableEq κ] {l : List (κ × α)} {k : κ}
    {v : α} (h : lookupIdx l k = some v) : (k, v) ∈ l := by
  unfold lookupIdx at h
  cases hf : l.find? (fun p => p.1 = k) with
  | none => rw [hf] at h; cases h
  | some q =>
    rw [hf] at h
    have hq : q ∈ l := List.mem_of_find?_eq_some hf
    have hqk : q.1 = k := by simpa using List.find?_some hf
    have hv : q.2 = v := by simpa using h
    have : (k, v) = q := by
      rw [← hqk, ← hv]
    rw [this]
    exact hq

theorem lookupIdx_of_mem {κ α : Type} [DecidableEq κ] {l : List (κ × α)} {k : κ}
    {v : α} (hn : (l.map Prod.fst).Nodup) (h : (k, v) ∈ l) :
    lookupIdx l k = some v := by
  induction l with
  | nil => cases h
  | cons q t ih =>
    rcases List.mem_cons.1 h with hq | ht
    · rw [← hq]
      unfold lookupIdx
      simp [List.find?_cons]
    · have hnt : (t.map Prod.fst).Nodup := (List.nodup_cons.1 hn).2
      have hqk : ¬q.1 = k := by
        intro hqk
        have hkmem : k ∈ t.map Prod.fst := List.mem_map_of_mem Prod.fst ht
        exact (List.nodup_cons.1 hn).1 (hqk ▸ hkmem)
      unfold lookupIdx
      simp only [List.find?_cons, decide_eq_false hqk]
      exact ih hnt ht

theorem any_map_upd {κ α : Type} [DecidableEq κ] (l : List (κ × α)) (kb : κ)
    (v : α) (k : κ) :
    (l.map (fun p => if p.1 = kb then (kb, v) else p)).any (fun p => p.1 = k)
      = l.any (fun p => p.1 = k) := by
  induction l with
  | nil => rfl
  | cons q t ih =>
    rw [List.map_cons, List.any_cons, List.any_cons, ih]
    by_cases hq : q.1 = kb
    · rw [if_pos hq]
      simp [hq]
    · rw [if_neg hq]

theorem recEntries_cons_some {r : Record} {k : String × String}
    (rest : List Record) (hk : recKey r = some k) :
    recEntries (r :: rest) = (k, r) :: recEntries rest := by
  simp [recEntries, hk]

theorem recEntries_cons_none {r : Record} (rest : List Record)
    (hk : recKey r = none) :
    recEntries (r :: rest) = recEntries rest := by
  simp [recEntries, hk]

theorem recEntries_map_snd (J : Idx) (hc : keyConsistent J) :
    recEntries (J.map Prod.snd) = J := by
  induction J with
  | nil => rfl
  | cons p t ih =>
    have hp : recKey p.2 = some p.1 := hc p (List.mem_cons_self p t)
    have ht : keyConsistent t := fun q hq => hc q (List.mem_cons_of_mem p hq)
    rw [List.map_cons, recEntries_cons_some _ hp, Prod.mk.eta, ih ht]

theorem mem_recEntries {rest : List Record} {r : Record} {k : String × String}
    (hr : r ∈ rest) (hk : recKey r = some k) : (k, r) ∈ recEntries rest := by
  induction rest with
  | nil => cases hr
  | cons a t ih =>
    rcases List.mem_cons.1 hr with rfl | hmem
    · rw [recEntries_cons_some _ hk]
      exact List.mem_cons_self _ _
    · cases ha : recKey a with
      | some ka =>
        rw [recEntries_cons_some _ ha]
        exact List.mem_cons_of_mem _ (ih hmem)
      | none =>
        rw [recEntries_cons_none _ ha]
        exact ih hmem

theorem indexAds_fresh (l : List Record) :
    ∀ init : Idx,
    (∀ r ∈ l, ∀ k, recKey r = some k → init.any (fun p => p.1 = k) = false) →
    ((recEntries l).map Prod.fst).Nodup →
    indexAds init l = init ++ recEntries l := by
  induction l with
  | nil =>
    intro init _ _
    simp [indexAds, recEntries]
  | cons a t ih =>
    intro init hfresh hnd
    cases hk : recKey a with
    | none =>
      rw [indexAds_cons_none init a t hk,
          ih init (fun r hr k hrk => hfresh r (List.mem_cons_of_mem a hr) k hrk)
            (by rwa [recEntries_cons_none _ hk] at hnd),
          recEntries_cons_none _ hk]
    | some ka =>
      have hnd' : ((ka, a) :: recEntries t).map Prod.fst
          |>.Nodup := by rwa [recEntries_cons_some _ hk] at hnd
      rw [List.map_cons] at hnd'
      have hka_not : ka ∉ (recEntries t).map Prod.fst := (List.nodup_cons.1 hnd').1
      have hfa : init.any (fun p => p.1 = ka) = false :=
        hfresh a (List.mem_cons_self a t) ka hk
      have hins : pyDictInsert init ka a = init ++ [(ka, a)] := by
        unfold pyDictInsert
        rw [if_neg (by simp [hfa])]
      have hf : ∀ r ∈ t, ∀ k, recKey r = some k →
          (init ++ [(ka, a)]).any (fun p => p.1 = k) = false := by
        intro r hr k hrk
        rw [List.any_append]
        have h1 : init.any (fun p => p.1 = k) = false :=
          hfresh r (List.mem_cons_of_mem a hr) k hrk
        have h2 : ¬ka = k := by
          intro he
          apply hka_not
          subst he
          exact List.mem_map_of_mem Prod.fst (mem_recEntries hr hrk)
        simp [h1, h2]
      rw [indexAds_cons_some init a t ka hk, hins,
          ih (init ++ [(ka, a)]) hf (List.nodup_cons.1 hnd').2,
          recEntries_cons_some _ hk, List.append_assoc]
      rfl

theorem indexAds_filter_overlay (c : String) (B : List Record) :
    ∀ l : Idx,
    (∀ b ∈ B, ∀ k, recKey b = some k → l.any (fun p => p.1 = k) = false →
      keepB c k = false) →
    (indexAds l B).filter (fun p => keepB c p.1) =
      (l.map (fun p => (p.1, (lastWith B p.1).getD p.2))).filter
        (fun p => keepB c p.1) := by
  induction B with
  | nil =>
    intro l _
    have hmap : l.map (fun p => (p.1, (lastWith ([] : List Record) p.1).getD p.2)) = l := by
      have h : ∀ p ∈ l, (p.1, (lastWith ([] : List Record) p.1).getD p.2) = p := by
        intro p _
        simp [lastWith]
      rw [List.map_congr_left h, List.map_id']
    rw [hmap]
    rfl
  | cons b bs ih =>
    intro l hyp
    cases hk : recKey b with
    | none =>
      have hyp' : ∀ b' ∈ bs, ∀ k, recKey b' = some k →
          l.any (fun p => p.1 = k) = false → keepB c k = false :=
        fun b' hb' k hbk hany => hyp b' (List.mem_cons_of_mem b hb') k hbk hany
      rw [indexAds_cons_none l b bs hk, ih l hyp']
      apply congrArg
      apply List.map_congr_left
      intro p _
      rw [lastWith_cons]
      cases lastWith bs p.1 with
      | some r => rfl
      | none => simp [hk]
    | some kb =>
      cases hany : l.any (fun p => p.1 = kb) with
      | true =>
        have hins : pyDictInsert l kb b
            = l.map (fun p => if p.1 = kb then (kb, b) else p) := by
          unfold pyDictInsert
          rw [if_pos hany]
        have hyp' : ∀ b' ∈ bs, ∀ k, recKey b' = some k →
            (l.map (fun p => if p.1 = kb then (kb, b) else p)).any
              (fun p => p.1 = k) = false → keepB c k = false := by
          intro b' hb' k hbk hany'
          rw [any_map_upd] at hany'
          exact hyp b' (List.mem_cons_of_mem b hb') k hbk hany'
        rw [indexAds_cons_some l b bs kb hk, hins, ih _ hyp']
        apply congrArg
        rw [List.map_map]
        apply List.map_congr_left
        intro p _
        by_cases hpk : p.1 = kb
        · simp only [Function.comp, if_pos hpk]
          rw [lastWith_cons, hpk]
          cases lastWith bs kb with
          | some r => rfl
          | none => simp [hk]
        · simp only [Function.comp, if_neg hpk]
          rw [lastWith_cons]
          cases lastWith bs p.1 with
          | some r => rfl
          | none =>
            have hne : ¬kb = p.1 := fun he => hpk he.symm
            simp [hk, hne]
      | false =>
        have hins : pyDictInsert l kb b = l ++ [(kb, b)] := by
          unfold pyDictInsert
          rw [if_neg (by simp [hany])]
        have hkeep : keepB c kb = false := hyp b (List.mem_cons_self b bs) kb hk hany
        have hyp' : ∀ b' ∈ bs, ∀ k, recKey b' = some k →
            (l ++ [(kb, b)]).any (fun p => p.1 = k) = false → keepB c k = false := by
          intro b' hb' k hbk hany'
          rw [List.any_append] at hany'
          rcases Bool.or_eq_false_iff.1 hany' with ⟨h1, _⟩
          exact hyp b' (List.mem_cons_of_mem b hb') k hbk h1
        rw [indexAds_cons_some l b bs kb hk, hins, ih _ hyp']
        rw [List.map_append, List.filter_append]
        have hsing : List.filter (fun p => keepB c p.1)
            (List.map (fun p => (p.1, (lastWith bs p.1).getD p.2)) [(kb, b)]) = [] := by
          simp [hkeep]
        rw [hsing, List.append_nil]
        apply congrArg
        apply List.map_congr_left
        intro p hp
        have hpk : ¬p.1 = kb := by
          intro he
          have := List.any_eq_false.1 hany p hp
          simp [he] at this
        rw [lastWith_cons]
        cases lastWith bs p.1 with
        | some r => rfl
        | none =>
          have hne : ¬kb = p.1 := fun he => hpk he.symm
          simp [hk, hne]

theorem buildIndex_keyConsistent (A B : List Record) :
    keyConsistent (buildIndex A B) :=
  indexAds_keyConsistent B _
    (indexAds_keyConsistent A [] (fun p hp => absurd hp (List.not_mem_nil p)))

theorem buildIndex_keysNodup (A B : List Record) : keysNodup (buildIndex A B) :=
  indexAds_keysNodup B _ (indexAds_keysNodup A [] List.nodup_nil)

theorem upsert_eq (A B : List Record) (ref c : String)
    (hc : cutoffString ref = some c) :
    upsertDailyAds A B ref =
      some (((buildIndex A B).filter (fun p => keepB c p.1)).map (fun p => p.2)) := by
  unfold upsertDailyAds
  rw [hc]
  rfl

theorem upsert_core_stable (A B : List Record) (c : String) :
    ((buildIndex (((buildIndex A B).filter (fun p => keepB c p.1)).map
        (fun p => p.2)) B).filter (fun p => keepB c p.1)).map (fun p => p.2)
      = ((buildIndex A B).filter (fun p => keepB c p.1)).map (fun p => p.2) := by
  have hconsIdx : keyConsistent (buildIndex A B) := buildIndex_keyConsistent A B
  have hnodIdx : keysNodup (buildIndex A B) := buildIndex_keysNodup A B
  set idx := buildIndex A B with hidx
  set J := idx.filter (fun p => keepB c p.1) with hJ
  have hconsJ : keyConsistent J := fun p hp => hconsIdx p (List.mem_of_mem_filter hp)
  have hnodJ : keysNodup J :=
    List.Nodup.sublist (List.Sublist.map Prod.fst (List.filter_sublist idx)) hnodIdx
  have hstep1 : indexAds [] (J.map Prod.snd) = J := by
    have hfresh : ∀ r ∈ J.map Prod.snd, ∀ k, recKey r = some k →
        ([] : Idx).any (fun p => p.1 = k) = false := by
      intro r _ k _
      rfl
    have hrec : recEntries (J.map Prod.snd) = J := recEntries_map_snd J hconsJ
    have hnd : ((recEntries (J.map Prod.snd)).map Prod.fst).Nodup := by
      rw [hrec]
      exact hnodJ
    rw [indexAds_fresh _ [] hfresh hnd, hrec, List.nil_append]
  have hH2 : ∀ b ∈ B, ∀ k, recKey b = some k →
      J.any (fun p => p.1 = k) = false → keepB c k = false := by
    intro b hb k hbk hanyJ
    have hsome : (lastWith B k).isSome = true := by
      unfold lastWith
      rw [List.find?_isSome]
      exact ⟨b, List.mem_reverse.2 hb, by simp [hbk]⟩
    obtain ⟨r, hr⟩ := Option.isSome_iff_exists.1 hsome
    have hlook : lookupIdx idx k = some r := by
      rw [hidx]
      unfold buildIndex
      rw [lookup_indexAds B (indexAds [] A) k, hr]
    have hmem : (k, r) ∈ idx := lookupIdx_mem hlook
    cases hkb : keepB c k with
    | false => rfl
    | true =>
      have hmemJ : (k, r) ∈ J := by
        rw [hJ]
        exact List.mem_filter.2 ⟨hmem, by simpa using hkb⟩
      have hany : J.any (fun p => p.1 = k) = true :=
        List.any_eq_true.2 ⟨(k, r), hmemJ, by simp⟩
      rw [hany] at hanyJ
      cases hanyJ
  have hmapid : J.map (fun p => (p.1, (lastWith B p.1).getD p.2)) = J := by
    have h : ∀ p ∈ J, (p.1, (lastWith B p.1).getD p.2) = p := by
      intro p hpJ
      cases hl : lastWith B p.1 with
      | none => simp
      | some r =>
        have hlook : lookupIdx idx p.1 = some r := by
          rw [hidx]
          unfold buildIndex
          rw [lookup_indexAds B (indexAds [] A) p.1, hl]
        have hpIdx : p ∈ idx := List.mem_of_mem_filter (hJ ▸ hpJ)
        have hpIdx' : (p.1, p.2) ∈ idx := by
          rw [Prod.mk.eta]
          exact hpIdx
        have hlook2 : lookupIdx idx p.1 = some p.2 := lookupIdx_of_mem hnodIdx hpIdx'
        rw [hlook] at hlook2
        have : r = p.2 := Option.some.inj hlook2
        rw [this, Option.getD_some, Prod.mk.eta]
    rw [List.map_congr_left h, List.map_id']
  have hfJ : J.filter (fun p => keepB c p.1) = J := by
    apply List.filter_eq_self.2
    intro p hp
    rw [hJ] at hp
    exact (List.mem_filter.1 hp).2
  have hbuild : buildIndex (J.map Prod.snd) B = indexAds J B := by
    unfold buildIndex
    rw [hstep1]
  rw [hbuild, indexAds_filter_overlay c B J hH2, hmapid, hfJ]

theorem recKey_some_parts {r : Record} {k : String × String}
    (h : recKey r = some k) :
    truthyStr r.ad_id = some k.1 ∧ adDateKey r = some k.2 := by
  unfold recKey at h
  cases hid : truthyStr r.ad_id with
  | none =>
    cases hdt : adDateKey r with
    | none => rw [hid, hdt] at h; cases h
    | some d => rw [hid, hdt] at h; cases h
  | some i =>
    cases hdt : adDateKey r with
    | none => rw [hid, hdt] at h; cases h
    | some d =>
      rw [hid, hdt] at h
      have hik := Option.some.inj h
      exact ⟨by rw [← hik], by rw [← hik]⟩

/-! ## Claim theorems -/

/-- C6 (confirmed): `_upsert_daily_ads` is idempotent — if merging `B` into
`A` at reference date `ref` produces `M`, merging the same `B` into `M` at
the same reference date produces `M` unchanged, because the overlay is keyed
and last-write-wins and pruning is a key-date filter. -/
theorem c6_upsert_idempotent (A B : List Record) (ref : String)
    (M : List Record) (h : upsertDailyAds A B ref = some M) :
    upsertDailyAds M B ref = some M := by
  obtain ⟨c, hc, hM⟩ : ∃ c, cutoffString ref = some c ∧
      ((buildIndex A B).filter (fun p => keepB c p.1)).map (fun p => p.2) = M := by
    unfold upsertDailyAds at h
    cases hcs : cutoffString ref with
    | none => rw [hcs] at h; cases h
    | some c =>
      rw [hcs] at h
      exact ⟨c, rfl, by simpa using h⟩
  rw [upsert_eq M B ref c hc, ← hM, upsert_core_stable A B c]

/-- Witness for C6: merging the conflicting row once more into the already
merged result changes nothing. -/
theorem c6_upsert_idempotent_witness :
    upsertDailyAds [recDup2] [recDup2] "2024-04-01" = some [recDup2] :=
  c6_upsert_idempotent [recDup1] [recDup2] "2024-04-01" [recDup2] (by decide)

/-- C7 (confirmed): the pruning step of `_upsert_daily_ads` keeps exactly the
merged index entries whose date is on or after `referenceDate − 90 days`:
every output record's key date is `>= cutoff`, every winning index entry with
date `>= cutoff` is kept, every entry with date `< cutoff` is dropped; and
with reference date 2024-04-01 the cutoff is exactly 2024-01-02, so a record
dated 2024-01-02 is kept while one dated 2024-01-01 is pruned. -/
theorem c7_retention_pruning (A B : List Record) (ref c : String)
    (M : List Record) (hc : cutoffString ref = some c)
    (h : upsertDailyAds A B ref = some M) :
    (∀ ad ∈ M, ∃ i d, recKey ad = some (i, d) ∧ strGe d c = true) ∧
    (∀ p ∈ buildIndex A B, strGe p.1.2 c = true → p.2 ∈ M) ∧
    (∀ p ∈ buildIndex A B, strGe p.1.2 c = false → p.2 ∉ M) ∧
    cutoffString "2024-04-01" = some "2024-01-02" ∧
    upsertDailyAds [] [recJan2, recJan1] "2024-04-01" = some [recJan2] := by
  have hM : ((buildIndex A B).filter (fun p => keepB c p.1)).map (fun p => p.2) = M := by
    rw [upsert_eq A B ref c hc] at h
    exact Option.some.inj h
  have hcons := buildIndex_keyConsistent A B
  refine ⟨?_, ?_, ?_, by decide, by decide⟩
  · intro ad had
    rw [← hM] at had
    rcases List.mem_map.1 had with ⟨p, hp, rfl⟩
    have hkey : recKey p.2 = some p.1 := hcons p (List.mem_of_mem_filter hp)
    refine ⟨p.1.1, p.1.2, ?_, ?_⟩
    · rw [hkey, Prod.mk.eta]
    · have := (List.mem_filter.1 hp).2
      simpa [keepB] using this
  · intro p hp hkeep
    rw [← hM]
    refine List.mem_map_of_mem _ (List.mem_filter.2 ⟨hp, ?_⟩)
    simpa [keepB] using hkeep
  · intro p hp hkeep hmem
    rw [← hM] at hmem
    rcases List.mem_map.1 hmem with ⟨q, hq, hqp⟩
    have hkq : recKey q.2 = some q.1 := hcons q (List.mem_of_mem_filter hq)
    have hkp : recKey p.2 = some p.1 := hcons p hp
    have hq1p1 : q.1 = p.1 := by
      have hh := hkq
      rw [hqp, hkp] at hh
      exact (Option.some.inj hh).symm
    have hkeepq := (List.mem_filter.1 hq).2
    rw [hq1p1] at hkeepq
    have htrue : strGe p.1.2 c = true := by simpa [keepB] using hkeepq
    rw [htrue] at hkeep
    cases hkeep

/-- Witness for C7 at the concrete retention boundary of the specification. -/
theorem c7_retention_pruning_witness :
    (∀ ad ∈ [recJan2], ∃ i d, recKey ad = some (i, d) ∧
      strGe d "2024-01-02" = true) ∧
    (∀ p ∈ buildIndex [] [recJan2, recJan1],
      strGe p.1.2 "2024-01-02" = true → p.2 ∈ [recJan2]) ∧
    (∀ p ∈ buildIndex [] [recJan2, recJan1],
      strGe p.1.2 "2024-01-02" = false → p.2 ∉ [recJan2]) ∧
    cutoffString "2024-04-01" = some "2024-01-02" ∧
    upsertDailyAds [] [recJan2, recJan1] "2024-04-01" = some [recJan2] :=
  c7_retention_pruning [] [recJan2, recJan1] "2024-04-01" "2024-01-02"
    [recJan2] (by decide) (by decide)

/-- C10 (confirmed): `_upsert_daily_ads` silently excludes key-less records —
every merged record has a truthy `ad_id` and a truthy date, and an input
record lacking either never appears in the result. -/
theorem c10_keyless_records_excluded (A B : List Record) (ref : String)
    (M : List Record) (h : upsertDailyAds A B ref = some M) :
    (∀ ad ∈ M, (truthyStr ad.ad_id).isSome = true ∧
      (adDateKey ad).isSome = true) ∧
    (∀ ad, (ad ∈ A ∨ ad ∈ B) → recKey ad = none → ad ∉ M) := by
  obtain ⟨c, hc⟩ : ∃ c, cutoffString ref = some c := by
    unfold upsertDailyAds at h
    cases hcs : cutoffString ref with
    | none => rw [hcs] at h; cases h
    | some c => exact ⟨c, rfl⟩
  have hM : ((buildIndex A B).filter (fun p => keepB c p.1)).map (fun p => p.2) = M := by
    rw [upsert_eq A B ref c hc] at h
    exact Option.some.inj h
  have hcons := buildIndex_keyConsistent A B
  have hall : ∀ ad ∈ M, (truthyStr ad.ad_id).isSome = true ∧
      (adDateKey ad).isSome = true := by
    intro ad had
    rw [← hM] at had
    rcases List.mem_map.1 had with ⟨p, hp, rfl⟩
    have hkey : recKey p.2 = some p.1 := hcons p (List.mem_of_mem_filter hp)
    rcases recKey_some_parts hkey with ⟨h1, h2⟩
    exact ⟨by rw [h1]; rfl, by rw [h2]; rfl⟩
  refine ⟨hall, ?_⟩
  intro ad _ hnone hmem
  rcases hall ad hmem with ⟨h1, h2⟩
  rcases Option.isSome_iff_exists.1 h1 with ⟨i, hi⟩
  rcases Option.isSome_iff_exists.1 h2 with ⟨d, hd⟩
  unfold recKey at hnone
  rw [hi, hd] at hnone
  cases hnone

/-- Witness for C10: a key-less row in the existing list is dropped while the
keyed row survives. -/
theorem c10_keyless_records_excluded_witness :
    (∀ ad ∈ [recDup1], (truthyStr ad.ad_id).isSome = true ∧
      (adDateKey ad).isSome = true) ∧
    (∀ ad, (ad ∈ [recNoKey] ∨ ad ∈ [recDup1]) → recKey ad = none →
      ad ∉ [recDup1]) :=
  c10_keyless_records_excluded [recNoKey] [recDup1] "2024-04-01" [recDup1]
    (by decide)

/-- C2 counterexample: a run whose shard validation fails writes *nothing* —
at the moment of the abort the merged raw dataset has NOT been persisted
(`baseline_daily.json` is not among the written files), contrary to the
claim that the raw-dataset write precedes validation. -/
theorem c2_validation_failure_counterexample :
    (syncAccountData (fun _ => ()) (fun _ => ["bad"]) none "2024-04-01"
      ([] : List Record)).error = some "Validation failed" ∧
    "baseline_daily.json" ∉ (syncAccountData (fun _ => ()) (fun _ => ["bad"])
      none "2024-04-01" ([] : List Record)).filesWritten ∧
    (syncAccountData (fun _ => ()) (fun _ => ["bad"]) none "2024-04-01"
      ([] : List Record)).persistedDailyAds = none := by
  decide

/-- C2 (corrected): when shard validation reports a nonempty error list, the
run aborts without writing any shard file — and without writing the raw
dataset either, because in the code validation precedes the
`baseline_daily.json` write. -/
theorem c2_validation_aborts_before_any_write {σ : Type}
    (transform : List Record → σ) (validate : σ → List String)
    (eb : Option Baseline) (ref : String) (fetched allAds : List Record)
    (hm : mergedAds eb ref fetched = some allAds)
    (hv : validate (transform allAds) ≠ []) :
    syncAccountData transform validate eb ref fetched
      = ⟨[], none, some "Validation failed"⟩ := by
  simp [syncAccountData, hm, hv]

/-- Witness for C2 on a concrete failing validator. -/
theorem c2_validation_aborts_before_any_write_witness :
    syncAccountData (fun _ : List Record => ()) (fun _ => ["missing column"])
      none "2024-04-01" [recDup1]
      = ⟨[], none, some "Validation failed"⟩ :=
  c2_validation_aborts_before_any_write (fun _ => ())
    (fun _ => ["missing column"]) none "2024-04-01" [recDup1] [recDup1]
    (by decide) (by decide)

/-- C3 counterexample: in BASELINE mode the persisted dataset is NOT
`upsert([], fetched, referenceDate)` — two fetched rows with the same
`(ad_id, date)` key are both persisted, while the upsert would keep only the
last one. -/
theorem c3_baseline_duplicates_counterexample :
    (syncAccountData (fun _ => ()) (fun _ => []) none "2024-04-01"
      [recDup1, recDup2]).persistedDailyAds = some [recDup1, recDup2] ∧
    upsertDailyAds [] [recDup1, recDup2] "2024-04-01" = some [recDup2] ∧
    recKey recDup1 = recKey recDup2 ∧ recDup1 ≠ recDup2 := by
  decide

/-- C3 (corrected): in BASELINE mode `sync_account_data` persists the fetched
(and enriched) record list unchanged (`all_daily_ads = daily_insights`):
no upsert, no dedup by `(entityId, date)` key and no retention pruning is
applied to it. -/
theorem c3_baseline_persists_fetched_list {σ : Type}
    (transform : List Record → σ) (validate : σ → List String)
    (eb : Option Baseline) (ref : String) (fetched : List Record)
    (hb : (determineRefreshMode eb ref).1 = "BASELINE")
    (hv : validate (transform fetched) = []) :
    (syncAccountData transform validate eb ref fetched).persistedDailyAds
      = some fetched := by
  have hm : mergedAds eb ref fetched = some fetched := by
    unfold mergedAds
    cases eb with
    | none => rfl
    | some b =>
      have hne : ¬(determineRefreshMode (some b) ref).1 = "TAIL" := by
        rw [hb]
        decide
      simp [hne]
  simp [syncAccountData, hm, hv]

/-- Witness for C3: a first run (no prior dataset) persists the duplicate
rows it fetched, verbatim. -/
theorem c3_baseline_persists_fetched_list_witness :
    (syncAccountData (fun _ : List Record => ()) (fun _ => []) none
      "2024-04-01" [recDup1, recDup2]).persistedDailyAds
      = some [recDup1, recDup2] :=
  c3_baseline_persists_fetched_list (fun _ => ()) (fun _ => []) none
    "2024-04-01" [recDup1, recDup2] (by decide) (by decide)

/-- C8 counterexample: with a prior dataset carrying the valid reference date
2024-01-01 and the unparseable reference-date argument `"notadate"`, the code
returns BASELINE although none of the claim's four BASELINE conditions holds
(the claim would force TAIL). -/
theorem c8_unparseable_reference_counterexample :
    determineRefreshMode (some cexBaseline) "notadate" = ("BASELINE", 90) ∧
    ¬c8ClaimCond (some cexBaseline) "notadate" := by
  constructor
  · decide
  · intro h
    rcases h with h | h | h
    · cases h
    · rcases h with ⟨b', hb', htr'⟩
      cases Option.some.inj hb'
      revert htr'
      decide
    · rcases h with ⟨b', bd', hb', htr', hrest⟩
      cases Option.some.inj hb'
      have hbd : bd' = "2024-01-01" := by
        have hx : truthyStr cexBaseline.referenceDate = some "2024-01-01" := by
          decide
        rw [hx] at htr'
        exact (Option.some.inj htr').symm
      subst hbd
      rcases hrest with h1 | h1
      · revert h1
        decide
      · rcases h1 with ⟨bdt, rdt, hp1, hp2, hlt⟩
        have hx : parseDate "notadate" = none := by decide
        rw [hx] at hp2
        cases hp2

/-- C8 (corrected): `_determine_refresh_mode` returns `(BASELINE, 90)` exactly
when there is no usable prior dataset, its reference date is missing/falsy,
*either* of the two dates fails to parse, or the prior reference date lies
strictly in the future; in every other case it returns `(TAIL, 3)`. -/
theorem c8_mode_characterization (b : Option Baseline) (ref : String) :
    (determineRefreshMode b ref = ("BASELINE", 90) ↔ c8AmendedCond b ref) ∧
    (determineRefreshMode b ref = ("BASELINE", 90) ∨
      determineRefreshMode b ref = ("TAIL", 3)) := by
  cases b with
  | none =>
    exact ⟨⟨fun _ => Or.inl rfl, fun _ => rfl⟩, Or.inl rfl⟩
  | some bl =>
    cases htr : truthyStr bl.referenceDate with
    | none =>
      have hval : determineRefreshMode (some bl) ref = ("BASELINE", 90) := by
        simp [determineRefreshMode, htr, BASELINE_DAYS]
      rw [hval]
      exact ⟨⟨fun _ => Or.inr (Or.inl ⟨bl, rfl, htr⟩), fun _ => rfl⟩, Or.inl rfl⟩
    | some bd =>
      cases hpb : parseDate bd with
      | none =>
        have hval : determineRefreshMode (some bl) ref = ("BASELINE", 90) := by
          simp [determineRefreshMode, htr, hpb, BASELINE_DAYS]
        rw [hval]
        refine ⟨⟨fun _ => Or.inr (Or.inr ⟨bl, bd, rfl, htr, Or.inl hpb⟩),
          fun _ => rfl⟩, Or.inl rfl⟩
      | some bdt =>
        cases hpr : parseDate ref with
        | none =>
          have hval : determineRefreshMode (some bl) ref = ("BASELINE", 90) := by
            simp [determineRefreshMode, htr, hpb, hpr, BASELINE_DAYS]
          rw [hval]
          refine ⟨⟨fun _ => Or.inr (Or.inr ⟨bl, bd, rfl, htr, Or.inr (Or.inl hpr)⟩),
            fun _ => rfl⟩, Or.inl rfl⟩
        | some rdt =>
          by_cases hfut : (dayNumber3 rdt : Int) - (dayNumber3 bdt : Int) < 0
          · have hval : determineRefreshMode (some bl) ref = ("BASELINE", 90) := by
              simp [determineRefreshMode, htr, hpb, hpr, hfut, BASELINE_DAYS]
            rw [hval]
            refine ⟨⟨fun _ => Or.inr (Or.inr ⟨bl, bd, rfl, htr,
              Or.inr (Or.inr ⟨bdt, rdt, hpb, hpr, by omega⟩)⟩), fun _ => rfl⟩,
              Or.inl rfl⟩
          · have hval : determineRefreshMode (some bl) ref = ("TAIL", 3) := by
              simp [determineRefreshMode, htr, hpb, hpr, hfut, TAIL_BACKFILL_DAYS]
            rw [hval]
            constructor
            · constructor
              · intro hcontra
                exact absurd hcontra (by decide)
              · intro hcond
                exfalso
                rcases hcond with h | h | h
                · cases h
                · rcases h with ⟨b', hb', htr'⟩
                  cases Option.some.inj hb'
                  rw [htr] at htr'
                  cases htr'
                · rcases h with ⟨b', bd', hb', htr', hrest⟩
                  cases Option.some.inj hb'
                  rw [htr] at htr'
                  cases Option.some.inj htr'
                  rcases hrest with h1 | h1 | h1
                  · rw [hpb] at h1
                    cases h1
                  · rw [hpr] at h1
                    cases h1
                  · rcases h1 with ⟨bdt', rdt', hp1, hp2, hlt⟩
                    rw [hpb] at hp1
                    rw [hpr] at hp2
                    cases Option.some.inj hp1
                    cases Option.some.inj hp2
                    omega
            · right
              rfl

/-- C4 counterexample: after a 90% snapshot for key `acct` is overwritten by
a 10% snapshot, the max over the stored snapshots is 10 but `global_usage`
stays 90 — it does not decrease to the new maximum as the claim states. -/
theorem c4_global_usage_counterexample :
    (parseHeaders (parseHeaders monInit hdr90 "acct").1 hdr10 "acct").1.globalUsage
      = 90 ∧
    maxStoredUsage
      (parseHeaders (parseHeaders monInit hdr90 "acct").1 hdr10 "acct").1 = 10 ∧
    (parseHeaders (parseHeaders monInit hdr90 "acct").1 hdr10 "acct").1.globalUsage
      ≠ maxStoredUsage
        (parseHeaders (parseHeaders monInit hdr90 "acct").1 hdr10 "acct").1 := by
  decide

/-- C4 (corrected): `global_usage` is a running maximum over every snapshot
ever parsed: each `parse_headers` call sets it to the max of its previous
value and the new snapshot's `usage_percent`, so it never decreases — even
when the stored snapshot that held the maximum is overwritten by a lower
one. -/
theorem c4_global_usage_running_max (st : MonState) (h : Headers)
    (aid : String) :
    (parseHeaders st h aid).1.globalUsage
        = max st.globalUsage (parseHeaders st h aid).2.usage_percent ∧
    st.globalUsage ≤ (parseHeaders st h aid).1.globalUsage := by
  constructor
  · rfl
  · have hg : (parseHeaders st h aid).1.globalUsage
        = max st.globalUsage (parseHeaders st h aid).2.usage_percent := rfl
    rw [hg]
    exact le_max_left _ _

theorem bucStep_usage (ui : UsageInfo) (u : BUCEntry) :
    (bucStep ui u).usage_percent = max ui.usage_percent (bucFieldMax u) := by
  unfold bucStep
  by_cases h : 0 < u.estimated_time_to_regain_access <;> simp [h]

theorem foldl_bucStep_usage (us : List BUCEntry) :
    ∀ ui : UsageInfo, (us.foldl bucStep ui).usage_percent
      = (us.map bucFieldMax).foldl max ui.usage_percent := by
  induction us with
  | nil => intro ui; rfl
  | cons u t ih =>
    intro ui
    rw [List.foldl_cons, List.map_cons, List.foldl_cons, ih, bucStep_usage]

theorem applyBucHeader_parsed_usage (L : List (String × List BUCEntry)) :
    ∀ ui : UsageInfo,
    (applyBucHeader ui (.parsed L)).usage_percent
      = (L.flatMap (fun p => p.2.map bucFieldMax)).foldl max ui.usage_percent := by
  induction L with
  | nil => intro ui; rfl
  | cons p t ih =>
    intro ui
    show ((p :: t).foldl (fun ui q => q.2.foldl bucStep ui) ui).usage_percent = _
    rw [List.foldl_cons]
    have hsub : ((t.foldl (fun ui q => q.2.foldl bucStep ui)
        (p.2.foldl bucStep ui))).usage_percent
        = (t.flatMap (fun q => q.2.map bucFieldMax)).foldl max
            (p.2.foldl bucStep ui).usage_percent := ih (p.2.foldl bucStep ui)
    rw [hsub, foldl_bucStep_usage, List.flatMap_cons, List.foldl_append]

theorem applyThresholds_usage (ui : UsageInfo) :
    (applyThresholds ui).usage_percent = ui.usage_percent := by
  unfold applyThresholds
  split <;> rfl

theorem applyAccHeader_skipped (ui : UsageInfo) (h : Headers)
    (hbuc : headerPresent h.buc = true) : applyAccHeader ui h = ui := by
  unfold applyAccHeader
  rw [hbuc]
  simp

/-- C5 counterexample: with a detailed header that is present and parses
(10%) and a throttle header reporting 50%, the result is 50% — the throttle
encoding contributed even though the detailed encoding parsed; removing the
throttle header changes the result to 10%. -/
theorem c5_throttle_not_ignored_counterexample :
    headerPresent cexHeaders.buc = true ∧
    (parseHeaders monInit cexHeaders "acct").2.usage_percent = 50 ∧
    (parseHeaders monInit cexHeadersNoThr "acct").2.usage_percent = 10 := by
  decide

/-- C5 (corrected): when the detailed per-feature header string is present,
the single-account encoding is ignored (any value for it yields the same
result), but the endpoint-throttle encoding still contributes: the resulting
`usage_percent` is the maximum of 0, every per-feature maximum of the
detailed header, and the two throttle percentages. -/
theorem c5_header_precedence (st : MonState) (h : Headers) (aid : String)
    (accv : HeaderVal AccUsage) (hbuc : headerPresent h.buc = true) :
    parseHeaders st { h with acc := accv } aid = parseHeaders st h aid ∧
    (parseHeaders st h aid).2.usage_percent
      = (parsedUsageFields h).foldl max 0 := by
  obtain ⟨hbv, hav, htv⟩ := h
  constructor
  · unfold parseHeaders
    have h1 : applyAccHeader (applyBucHeader initUsage hbv)
        ⟨hbv, accv, htv⟩ = applyBucHeader initUsage hbv :=
      applyAccHeader_skipped _ _ hbuc
    have h2 : applyAccHeader (applyBucHeader initUsage hbv)
        ⟨hbv, hav, htv⟩ = applyBucHeader initUsage hbv :=
      applyAccHeader_skipped _ _ hbuc
    show (⟨_, _⟩, _) = ((⟨_, _⟩, _) : MonState × UsageInfo)
    rw [h1, h2]
  · unfold parseHeaders
    rw [applyAccHeader_skipped _ _ hbuc]
    show (applyThresholds (applyThrottleHeader
      (applyBucHeader initUsage hbv) htv)).usage_percent = _
    rw [applyThresholds_usage]
    unfold parsedUsageFields
    cases hbv with
    | absent => cases hbuc
    | malformed =>
      cases htv with
      | absent => rfl
      | malformed => rfl
      | parsed t =>
        show max (max (0 : ℚ) t.app_id_util_pct) t.acc_id_util_pct = _
        rw [List.nil_append]
        rfl
    | parsed L =>
      cases htv with
      | absent =>
        show (applyBucHeader initUsage (.parsed L)).usage_percent = _
        rw [applyBucHeader_parsed_usage, List.append_nil]
        rfl
      | malformed =>
        show (applyBucHeader initUsage (.parsed L)).usage_percent = _
        rw [applyBucHeader_parsed_usage, List.append_nil]
        rfl
      | parsed t =>
        show max (max (applyBucHeader initUsage (.parsed L)).usage_percent
            t.app_id_util_pct) t.acc_id_util_pct = _
        rw [applyBucHeader_parsed_usage, List.foldl_append]
        rfl

/-- Witness for C5 on the concrete counterexample headers. -/
theorem c5_header_precedence_witness :
    parseHeaders monInit { cexHeaders with acc := .parsed ⟨77, none⟩ } "acct"
        = parseHeaders monInit cexHeaders "acct" ∧
    (parseHeaders monInit cexHeaders "acct").2.usage_percent
      = (parsedUsageFields cexHeaders).foldl max 0 :=
  c5_header_precedence monInit cexHeaders "acct" (.parsed ⟨77, none⟩)
    (by decide)

/-- C1 (code bug): `response.raise_for_status()` in the dedicated 4xx branch
raises an `HTTPStatusError` that is caught by the same `except` handler that
drives retries, so a server answering 404 on every attempt is retried for
the whole budget of 4 attempts and then raises — exactly like a 500 — rather
than failing after a single attempt as the claim (and the code's own
comment) states; a 200 returns on the first attempt. -/
theorem c1_404_retried_like_500 :
    requestWithRetry (fun _ => HttpOutcome.status 404) 4 = (4, false) ∧
    requestWithRetry (fun _ => HttpOutcome.status 500) 4 = (4, false) ∧
    requestWithRetry (fun _ => HttpOutcome.status 200) 4 = (1, true) := by
  decide

theorem intRange_split (s m e : Int) (h1 : s ≤ m + 1) (h2 : m ≤ e) :
    intRange s m ++ intRange (m + 1) e = intRange s e := by
  by_cases hsm : s ≤ m
  · rw [intRange.eq_def]
    rw [dif_pos hsm]
    conv_rhs => rw [intRange.eq_def]
    rw [dif_pos (le_trans hsm h2)]
    rw [List.cons_append]
    rw [intRange_split (s + 1) m e (by omega) h2]
  · have hs : ¬s ≤ m := hsm
    rw [intRange.eq_def]
    rw [dif_neg hs, List.nil_append]
    have : s = m + 1 := by omega
    rw [this]
termination_by (m + 1 - s).toNat
decreasing_by omega

theorem intRange_mem (s e x : Int) : x ∈ intRange s e ↔ s ≤ x ∧ x ≤ e := by
  by_cases hse : s ≤ e
  · rw [intRange.eq_def, dif_pos hse, List.mem_cons, intRange_mem (s + 1) e x]
    omega
  · rw [intRange.eq_def, dif_neg hse]
    simp
    omega
termination_by (e + 1 - s).toNat
decreasing_by omega

theorem intRange_nodup (s e : Int) : (intRange s e).Nodup := by
  by_cases hse : s ≤ e
  · rw [intRange.eq_def, dif_pos hse]
    refine List.nodup_cons.2 ⟨?_, intRange_nodup (s + 1) e⟩
    rw [intRange_mem]
    omega
  · rw [intRange.eq_def, dif_neg hse]
    exact List.nodup_nil
termination_by (e + 1 - s).toNat
decreasing_by omega

theorem chunkRanges_cover (s e : Int) :
    (chunkRanges s e).flatMap (fun p => intRange p.1 p.2) = intRange s e := by
  by_cases hse : s ≤ e
  · rw [chunkRanges.eq_def, dif_pos hse, List.flatMap_cons]
    rw [chunkRanges_cover (min (s + 29) e + 1) e]
    exact intRange_split s (min (s + 29) e) e (by omega) (by omega)
  · rw [chunkRanges.eq_def, dif_neg hse, intRange.eq_def, dif_neg hse]
    rfl
termination_by (e + 1 - s).toNat
decreasing_by omega

theorem chunkRanges_length_90 (t : Int) :
    (chunkRanges (t - 90) (t - 1)).length = 3 := by
  rw [chunkRanges.eq_def, dif_pos (by omega : t - 90 ≤ t - 1)]
  have h1 : min (t - 90 + 29) (t - 1) = t - 61 := by omega
  rw [h1]
  rw [chunkRanges.eq_def, dif_pos (by omega : t - 61 + 1 ≤ t - 1)]
  have h2 : min (t - 61 + 1 + 29) (t - 1) = t - 31 := by omega
  rw [h2]
  rw [chunkRanges.eq_def, dif_pos (by omega : t - 31 + 1 ≤ t - 1)]
  have h3 : min (t - 31 + 1 + 29) (t - 1) = t - 1 := by omega
  rw [h3]
  rw [chunkRanges.eq_def, dif_neg (by omega : ¬t - 1 + 1 ≤ t - 1)]
  rfl

/-- C9 (confirmed): when the window exceeds the 30-day chunk threshold, the
fetch windows cover the range `[today - days, yesterday]` exactly — the
concatenation of the chunk date ranges is precisely that range, with no day
repeated (no overlap, no gap), and a 90-day window yields exactly 3 chunks. -/
theorem c9_chunked_fetch_windows (t : Int) (d : Nat) (hd : 30 < d) :
    ((fetchWindows t d).flatMap (fun p => intRange p.1 p.2)
        = intRange (t - d) (t - 1)) ∧
    ((fetchWindows t d).flatMap (fun p => intRange p.1 p.2)).Nodup ∧
    (d = 90 → (fetchWindows t d).length = 3) := by
  have hw : fetchWindows t d = chunkRanges (t - d) (t - 1) := by
    unfold fetchWindows CHUNK_SIZE_DAYS
    rw [if_pos hd]
  refine ⟨?_, ?_, ?_⟩
  · rw [hw, chunkRanges_cover]
  · rw [hw, chunkRanges_cover]
    exact intRange_nodup _ _
  · intro hd90
    subst hd90
    rw [hw]
    have hcast : ((90 : Nat) : Int) = 90 := by norm_num
    rw [hcast]
    exact chunkRanges_length_90 t

/-- Witness for C9 at `today = 0` with the 90-day BASELINE window. -/
theorem c9_chunked_fetch_windows_witness :
    ((fetchWindows 0 90).flatMap (fun p => intRange p.1 p.2)
        = intRange (0 - (90 : Nat)) (0 - 1)) ∧
    ((fetchWindows 0 90).flatMap (fun p => intRange p.1 p.2)).Nodup ∧
    ((90 : Nat) = 90 → (fetchWindows 0 90).length = 3) :=
  c9_chunked_fetch_windows 0 90 (by decide)

end Insights
